import Mathlib

/-
Verification of the service worker in src/static/sw.js.

The worker registers two event handlers:

  self.addEventListener('install', (event) => {
    event.waitUntil(
      caches.open('expense-cache-v1').then((cache) => cache.addAll([
        '/', '/static/style.css'
      ]))
    );
  });
  self.addEventListener('fetch', (event) => {
    event.respondWith(
      caches.match(event.request).then((resp) => resp || fetch(event.request))
    );
  });

The shallow embedding below models the browser-provided pieces the code calls,
following the standard Cache API semantics:
  - a cache partition is an ordered list of request/response entries;
  - the CacheStorage is an ordered list of named partitions;
  - `caches.open(name)` creates the partition when absent (appended last);
  - `caches.match(req)` searches ALL partitions in creation order and returns
    the first stored response whose request matches (it is the CacheStorage
    method, not the per-partition `cache.match`);
  - `cache.addAll(urls)` issues GET fetches for all urls, fails if any fetch
    rejects or yields a non-2xx response, and on success stores every
    fetched response (a put replaces an existing entry for the same request),
    as an all-or-nothing batch;
  - a network fetch either yields a response (any status) or rejects, which
    we model as `Option Response` (`none` = rejected promise).

Handlers additionally return the resulting cache storage and a trace of the
cache/network effects they performed, so that frame claims (no writes, no
network calls, no reads of prior contents) are stated over the trace rather
than assumed.
-/

namespace SW

/-- A request identity: method plus URL (the key space of the Cache API). -/
structure Request where
  method : String
  url : String
deriving DecidableEq

/-- A stored or network response: status, headers, body. -/
structure Response where
  status : Nat
  headers : List (String × String)
  body : String
deriving DecidableEq

/-- The network layer as seen by `fetch`: a request either yields a response
(of any status) or fails; `none` models a rejected fetch promise. -/
abbrev Network : Type := Request → Option Response

/-- A cache partition: ordered request/response entries. -/
abbrev Cache : Type := List (Request × Response)

/-- The cache storage: named partitions in creation order. -/
abbrev CacheStorage : Type := List (String × Cache)

/-- The effects a handler can perform against the host: opening a partition,
reading the storage for a request, calling the network, writing an entry. -/
inductive Eff where
  | cacheOpen : String → Eff
  | cacheRead : Request → Eff
  | netCall : Request → Eff
  | cacheWrite : String → Request → Response → Eff
deriving DecidableEq

/-- Whether an effect is a network call. -/
def Eff.isNetCall : Eff → Bool
  | Eff.netCall _ => true
  | _ => false

/-- Whether an effect writes to the cache storage. -/
def Eff.isCacheWrite : Eff → Bool
  | Eff.cacheWrite _ _ _ => true
  | _ => false

/-- Whether an effect reads stored cache contents. -/
def Eff.isCacheRead : Eff → Bool
  | Eff.cacheRead _ => true
  | _ => false

/-- Number of network calls recorded in a trace. -/
def netCalls (tr : List Eff) : Nat := (tr.filter Eff.isNetCall).length

/-- Lookup within one partition: first entry stored for the request
(`cache.match`). -/
def cacheMatchIn : Cache → Request → Option Response
  | [], _ => none
  | (r, v) :: rest, req => if r = req then some v else cacheMatchIn rest req

/-- `caches.match`: searches every partition of the storage in order and
returns the first stored response matching the request. -/
def cachesMatch : CacheStorage → Request → Option Response
  | [], _ => none
  | (_, c) :: rest, req =>
    match cacheMatchIn c req with
    | some v => some v
    | none => cachesMatch rest req

/-- First partition stored under a name. -/
def findPartition : CacheStorage → String → Option Cache
  | [], _ => none
  | (n, c) :: rest, name => if n = name then some c else findPartition rest name

/-- `caches.open(name)`: returns the storage with the named partition present,
creating an empty one (appended last) when absent. -/
def cachesOpen (cs : CacheStorage) (name : String) : CacheStorage :=
  match findPartition cs name with
  | some _ => cs
  | none => cs ++ [(name, [])]

/-- Apply a function to the contents of the named partition. -/
def storageUpdate : CacheStorage → String → (Cache → Cache) → CacheStorage
  | [], _, _ => []
  | (n, c) :: rest, name, f =>
    if n = name then (n, f c) :: rest else (n, c) :: storageUpdate rest name f

/-- The entries of the named partition ([] when the partition is absent). -/
def partitionEntries (cs : CacheStorage) (name : String) : Cache :=
  (findPartition cs name).getD []

/-- The request keys stored in the named partition. -/
def partitionKeys (cs : CacheStorage) (name : String) : List Request :=
  (partitionEntries cs name).map Prod.fst

/-- `cache.put`: replaces the entry stored for the request in place, or
appends a new entry. -/
def cachePut : Cache → Request → Response → Cache
  | [], req, v => [(req, v)]
  | (r, w) :: rest, req, v =>
    if r = req then (req, v) :: rest else (r, w) :: cachePut rest req v

/-- Store a batch of fetched entries, first to last. -/
def putAll : Cache → List (Request × Response) → Cache
  | c, [] => c
  | c, (r, v) :: rest => putAll (cachePut c r v) rest

/-- The partition name hard-coded in src/static/sw.js line 3. -/
def cacheName : String := "expense-cache-v1"

/-- The preload URLs hard-coded in src/static/sw.js line 4. -/
def preloadUrls : List String := ["/", "/static/style.css"]

/-- The GET requests `cache.addAll` issues for the preload URLs. -/
def preloadRequests : List Request :=
  preloadUrls.map (fun u => { method := "GET", url := u })

/-- A response the Cache API treats as storable: 2xx status. -/
def responseOk (r : Response) : Bool := 200 ≤ r.status && r.status < 300

/-- A fetch as performed by `cache.addAll`: succeeds only when the network
yields a response and that response is ok (2xx); otherwise the add fails. -/
def okFetch (net : Network) (req : Request) : Option Response :=
  match net req with
  | some r => if responseOk r then some r else none
  | none => none

/-- Fetch a list of requests for `cache.addAll`: all-or-nothing; any failed
or non-ok fetch fails the whole batch. -/
def fetchList (net : Network) : List Request → Option (List (Request × Response))
  | [] => some []
  | r :: rs =>
    match okFetch net r, fetchList net rs with
    | some v, some tail => some ((r, v) :: tail)
    | _, _ => none

/-- The fetch handler (src/static/sw.js lines 8-12):
`caches.match(event.request).then((resp) => resp || fetch(event.request))`.
Returns the response the promise settles to (`none` = rejection), the
resulting cache storage, and the trace of effects performed. -/
def handleFetch (net : Network) (cs : CacheStorage) (req : Request) :
    Option Response × CacheStorage × List Eff :=
  match cachesMatch cs req with
  | some v => (some v, cs, [Eff.cacheRead req])
  | none => (net req, cs, [Eff.cacheRead req, Eff.netCall req])

/-- The install handler (src/static/sw.js lines 1-7):
`caches.open('expense-cache-v1').then((cache) => cache.addAll(['/', '/static/style.css']))`.
Returns whether the waited-on promise resolved (install success), the
resulting cache storage, and the trace of effects performed: the partition
is opened, all preload URLs are fetched from the network, and only when
every fetch yields an ok response is the batch written. -/
def handleInstall (net : Network) (cs : CacheStorage) :
    Bool × CacheStorage × List Eff :=
  let cs1 := cachesOpen cs cacheName
  match fetchList net preloadRequests with
  | some entries =>
    (true, storageUpdate cs1 cacheName (fun c => putAll c entries),
      Eff.cacheOpen cacheName :: preloadRequests.map Eff.netCall
        ++ entries.map (fun e => Eff.cacheWrite cacheName e.1 e.2))
  | none =>
    (false, cs1, Eff.cacheOpen cacheName :: preloadRequests.map Eff.netCall)

/-- The GET request for the first preload URL. -/
def homeReq : Request := { method := "GET", url := "/" }

/-- The GET request for the second preload URL. -/
def cssReq : Request := { method := "GET", url := "/static/style.css" }

/-- A sample stored response used by concrete witnesses. -/
def homeResp : Response := { status := 200, headers := [], body := "home" }

/-- A sample stored stylesheet response used by concrete witnesses. -/
def cssResp : Response := { status := 200, headers := [], body := "css" }

/-- A network that always fails (every fetch promise rejects). -/
def netDown : Network := fun _ => none

/-- A network that answers every request with an ok response echoing the URL. -/
def netAll : Network := fun r => some { status := 200, headers := [], body := r.url }

/-- A network that only answers the first preload URL; everything else fails. -/
def netHomeOnly : Network := fun r => if r = homeReq then some homeResp else none

/-- A storage state in which the partition already holds both preload entries. -/
def preInstalledState : CacheStorage :=
  [(cacheName, [(homeReq, homeResp), (cssReq, cssResp)])]

/-- A storage state whose only partition is NOT expense-cache-v1, yet holds an
entry for GET /x. -/
def otherOnlyState : CacheStorage :=
  [("other-cache", [({ method := "GET", url := "/x" }, homeResp)])]

/-- A storage state holding a stale stored response for the first preload URL. -/
def staleState : CacheStorage :=
  [(cacheName, [(homeReq, { status := 200, headers := [], body := "stale" })])]

/-- The suspension phases of one in-flight fetch event: before the
`caches.match` promise settles, after a miss but before the network promise
settles, and settled with a final outcome. -/
inductive FetchPhase where
  | start : FetchPhase
  | needNet : FetchPhase
  | resolved : Option Response → FetchPhase
deriving DecidableEq

/-- One cooperative step of an in-flight fetch event over the shared storage:
from `start`, settle the cache lookup (hit resolves, miss moves to `needNet`);
from `needNet`, settle the network fetch; a resolved event stays resolved.
The handler performs no cache write, so the shared storage passes through. -/
def stepFetch (net : Network) (req : Request) :
    FetchPhase → CacheStorage → FetchPhase × CacheStorage
  | FetchPhase.start, cs =>
    (match cachesMatch cs req with
      | some v => FetchPhase.resolved (some v)
      | none => FetchPhase.needNet, cs)
  | FetchPhase.needNet, cs => (FetchPhase.resolved (net req), cs)
  | FetchPhase.resolved v, cs => (FetchPhase.resolved v, cs)

/-- Interleaved execution of two concurrent fetch events sharing one storage:
the boolean says which event's pending promise settles next. -/
def stepSystem (net : Network) (r1 r2 : Request)
    (st : FetchPhase × FetchPhase × CacheStorage) (who : Bool) :
    FetchPhase × FetchPhase × CacheStorage :=
  if who then
    ((stepFetch net r1 st.1 st.2.2).1, st.2.1, (stepFetch net r1 st.1 st.2.2).2)
  else
    (st.1, (stepFetch net r2 st.2.1 st.2.2).1, (stepFetch net r2 st.2.1 st.2.2).2)

/-- Run an interleaving schedule over the two-event system. -/
def runSched (net : Network) (r1 r2 : Request) :
    FetchPhase × FetchPhase × CacheStorage → List Bool →
      FetchPhase × FetchPhase × CacheStorage
  | st, [] => st
  | st, b :: rest => runSched net r1 r2 (stepSystem net r1 r2 st b) rest

/-- The phases one fetch event for `req` can be in while the shared storage
is `cs`: not yet started, past a cache miss, or resolved with the same
outcome the handler produces when run alone. -/
def Reach (net : Network) (cs : CacheStorage) (req : Request) (p : FetchPhase) : Prop :=
  p = FetchPhase.start ∨
    (p = FetchPhase.needNet ∧ cachesMatch cs req = none) ∨
    p = FetchPhase.resolved (handleFetch net cs req).1

/-- C1: if the intercepted request matches a stored cache entry, the fetch
handler returns exactly that stored response and performs no network call. -/
theorem fetch_hit_serves_cached_without_network (net : Network) (cs : CacheStorage)
    (req : Request) (v : Response) (h : cachesMatch cs req = some v) :
    (handleFetch net cs req).1 = some v ∧
    netCalls (handleFetch net cs req).2.2 = 0 := by
  simp [handleFetch, h, netCalls, Eff.isNetCall]

/-- Witness for C1: a concrete hit on the stored entry for GET / is served
from the cache with zero network calls. -/
theorem fetch_hit_serves_cached_without_network_witness :
    (handleFetch netDown [(cacheName, [(⟨"GET", "/"⟩, homeResp)])] ⟨"GET", "/"⟩).1
        = some homeResp ∧
    netCalls (handleFetch netDown [(cacheName, [(⟨"GET", "/"⟩, homeResp)])]
        ⟨"GET", "/"⟩).2.2 = 0 :=
  fetch_hit_serves_cached_without_network netDown
    [(cacheName, [(⟨"GET", "/"⟩, homeResp)])] ⟨"GET", "/"⟩ homeResp rfl

/-- C2: if no stored cache entry matches the intercepted request, the fetch
handler returns exactly the result of the network fetch for that same
request, and the trace holds exactly one network call, for that request. -/
theorem fetch_miss_passes_through_network (net : Network) (cs : CacheStorage)
    (req : Request) (h : cachesMatch cs req = none) :
    (handleFetch net cs req).1 = net req ∧
    (handleFetch net cs req).2.2.filter Eff.isNetCall = [Eff.netCall req] := by
  simp [handleFetch, h, Eff.isNetCall]

/-- Witness for C2: a concrete miss in an empty storage is answered by the
(single) network fetch for the same request. -/
theorem fetch_miss_passes_through_network_witness :
    (handleFetch (fun r => some { status := 200, headers := [], body := r.url })
        [] ⟨"GET", "/a"⟩).1
      = (fun r => some { status := 200, headers := [], body := r.url })
          (⟨"GET", "/a"⟩ : Request) ∧
    (handleFetch (fun r => some { status := 200, headers := [], body := r.url })
        [] ⟨"GET", "/a"⟩).2.2.filter Eff.isNetCall
      = [Eff.netCall ⟨"GET", "/a"⟩] :=
  fetch_miss_passes_through_network
    (fun r => some { status := 200, headers := [], body := r.url }) [] ⟨"GET", "/a"⟩ rfl

/-- C6: on a cache miss whose network fetch fails, the response promise of the
fetch handler rejects, the rejection being the network's own, passed through
uncaught and untranslated. -/
theorem fetch_miss_network_failure_rejects (net : Network) (cs : CacheStorage)
    (req : Request) (h1 : cachesMatch cs req = none) (h2 : net req = none) :
    (handleFetch net cs req).1 = none ∧
    (handleFetch net cs req).1 = net req := by
  simp [handleFetch, h1, h2]

/-- Witness for C6: the request GET /missing with no entry and a failing
network yields a rejection. -/
theorem fetch_miss_network_failure_rejects_witness :
    (handleFetch netDown [(cacheName, [(⟨"GET", "/"⟩, homeResp)])]
        ⟨"GET", "/missing"⟩).1 = none ∧
    (handleFetch netDown [(cacheName, [(⟨"GET", "/"⟩, homeResp)])]
        ⟨"GET", "/missing"⟩).1 = netDown ⟨"GET", "/missing"⟩ :=
  fetch_miss_network_failure_rejects netDown
    [(cacheName, [(⟨"GET", "/"⟩, homeResp)])] ⟨"GET", "/missing"⟩ (by decide) rfl

/-- C7: handling a fetch event never modifies cache state: the storage after
the event is the storage before it, and the trace holds no cache write. -/
theorem fetch_never_writes_cache (net : Network) (cs : CacheStorage) (req : Request) :
    (handleFetch net cs req).2.1 = cs ∧
    (handleFetch net cs req).2.2.all (fun e => !(e.isCacheWrite)) = true := by
  cases h : cachesMatch cs req <;> simp [handleFetch, h, Eff.isCacheWrite]

/-- Searching a concatenated storage tries the left partitions first. -/
theorem findPartition_append (xs ys : CacheStorage) (m : String) :
    findPartition (xs ++ ys) m =
      match findPartition xs m with
      | some c => some c
      | none => findPartition ys m := by
  induction xs with
  | nil => simp [findPartition]
  | cons hd tl ih =>
    obtain ⟨n, c⟩ := hd
    by_cases h : n = m <;> simp [findPartition, h, ih]

/-- After `caches.open`, the named partition is present and holds exactly the
entries it had before (or none, when it was just created). -/
theorem findPartition_cachesOpen_self (cs : CacheStorage) (name : String) :
    findPartition (cachesOpen cs name) name = some (partitionEntries cs name) := by
  unfold cachesOpen partitionEntries
  cases h : findPartition cs name with
  | some c => simp [h]
  | none => simp [h, findPartition_append, findPartition]

/-- `caches.open` changes no partition's entries. -/
theorem partitionEntries_cachesOpen (cs : CacheStorage) (name m : String) :
    partitionEntries (cachesOpen cs name) m = partitionEntries cs m := by
  unfold cachesOpen
  cases h : findPartition cs name with
  | some c => rfl
  | none =>
    unfold partitionEntries
    rw [findPartition_append]
    cases h2 : findPartition cs m with
    | some c => simp
    | none => by_cases hm : name = m <;> simp [findPartition, hm]

/-- Updating a present partition rewrites exactly its entries. -/
theorem partitionEntries_storageUpdate_self (cs : CacheStorage) (name : String)
    (f : Cache → Cache) (c : Cache) (h : findPartition cs name = some c) :
    partitionEntries (storageUpdate cs name f) name = f c := by
  induction cs with
  | nil => simp [findPartition] at h
  | cons hd tl ih =>
    obtain ⟨n, d⟩ := hd
    by_cases hn : n = name
    · simp [findPartition, hn] at h
      simp [storageUpdate, partitionEntries, findPartition, hn, h]
    · simp [findPartition, hn] at h
      simpa [storageUpdate, partitionEntries, findPartition, hn] using ih h

/-- A put stores the response under its request. -/
theorem cacheMatchIn_cachePut_self (c : Cache) (req : Request) (v : Response) :
    cacheMatchIn (cachePut c req v) req = some v := by
  induction c with
  | nil => simp [cachePut, cacheMatchIn]
  | cons hd tl ih =>
    obtain ⟨r, w⟩ := hd
    by_cases h : r = req <;> simp [cachePut, cacheMatchIn, h, ih]

/-- A put leaves every other request's stored response unchanged. -/
theorem cacheMatchIn_cachePut_other (c : Cache) (req r0 : Request) (v : Response)
    (h : r0 ≠ req) : cacheMatchIn (cachePut c r0 v) req = cacheMatchIn c req := by
  induction c with
  | nil => simp [cachePut, cacheMatchIn, h]
  | cons hd tl ih =>
    obtain ⟨r, w⟩ := hd
    by_cases h2 : r = r0
    · subst h2
      simp [cachePut, cacheMatchIn, h]
    · by_cases h3 : r = req <;> simp [cachePut, cacheMatchIn, h2, h3, ih, Ne.symm h]

/-- Putting under a request already stored keeps the key list unchanged. -/
theorem keys_cachePut_mem (c : Cache) (req : Request) (v : Response)
    (h : req ∈ c.map Prod.fst) :
    (cachePut c req v).map Prod.fst = c.map Prod.fst := by
  induction c with
  | nil => simp at h
  | cons hd tl ih =>
    obtain ⟨r, w⟩ := hd
    by_cases h2 : r = req
    · simp [cachePut, h2]
    · have h3 : req ∈ tl.map Prod.fst := by
        rcases List.mem_map.mp h with ⟨⟨a, b⟩, hab, hfst⟩
        rcases List.mem_cons.mp hab with hh | hh
        · exact absurd (by rw [← hfst, hh]) h2
        · exact List.mem_map.mpr ⟨(a, b), hh, hfst⟩
      simp [cachePut, h2, ih h3]

/-- The preload requests are the two GETs hard-coded in the source. -/
theorem preloadRequests_eq : preloadRequests = [homeReq, cssReq] := rfl

/-- The two preload requests differ. -/
theorem homeReq_ne_cssReq : homeReq ≠ cssReq := by decide

/-- The batch fetch of the preload set, case by case on the two fetches. -/
theorem fetchList_preloads (net : Network) :
    fetchList net preloadRequests =
      match okFetch net homeReq, okFetch net cssReq with
      | some v1, some v2 => some [(homeReq, v1), (cssReq, v2)]
      | _, _ => none := by
  rw [preloadRequests_eq]
  cases h1 : okFetch net homeReq <;> cases h2 : okFetch net cssReq <;>
    simp [fetchList, h1, h2]

/-- C3: from a state where the partition expense-cache-v1 is absent or empty,
a successful install leaves that partition containing entries for exactly the
two preload URLs, each stored response being the freshly fetched one. -/
theorem install_populates_exactly_preloads (net : Network) (cs : CacheStorage)
    (h0 : partitionEntries cs cacheName = [])
    (h1 : (handleInstall net cs).1 = true) :
    ∃ v1 v2, okFetch net homeReq = some v1 ∧ okFetch net cssReq = some v2 ∧
      partitionEntries (handleInstall net cs).2.1 cacheName
        = [(homeReq, v1), (cssReq, v2)] := by
  cases hf1 : okFetch net homeReq with
  | none =>
    have hfl : fetchList net preloadRequests = none := by
      rw [fetchList_preloads, hf1]
    simp [handleInstall, hfl] at h1
  | some v1 =>
    cases hf2 : okFetch net cssReq with
    | none =>
      have hfl : fetchList net preloadRequests = none := by
        rw [fetchList_preloads, hf1, hf2]
      simp [handleInstall, hfl] at h1
    | some v2 =>
      have hfl : fetchList net preloadRequests = some [(homeReq, v1), (cssReq, v2)] := by
        rw [fetchList_preloads, hf1, hf2]
      refine ⟨v1, v2, rfl, rfl, ?_⟩
      simp only [handleInstall, hfl]
      rw [partitionEntries_storageUpdate_self _ _ _ _ (findPartition_cachesOpen_self cs cacheName),
        h0]
      simp [putAll, cachePut, homeReq_ne_cssReq]

/-- Witness for C3: installing into the empty storage over an always-ok
network stores exactly the two preload entries. -/
theorem install_populates_exactly_preloads_witness :
    partitionEntries ([] : CacheStorage) cacheName = [] ∧
    (handleInstall netAll []).1 = true ∧
    (∃ v1 v2, okFetch netAll homeReq = some v1 ∧ okFetch netAll cssReq = some v2 ∧
      partitionEntries (handleInstall netAll []).2.1 cacheName
        = [(homeReq, v1), (cssReq, v2)]) :=
  ⟨rfl, by decide, install_populates_exactly_preloads netAll [] rfl (by decide)⟩

/-- C5: if either preload fetch fails (rejects or yields a non-2xx response),
the install fails and no partition's entries change: the preload batch is
all-or-nothing, with no retry and no partial success. -/
theorem install_failure_all_or_nothing (net : Network) (cs : CacheStorage)
    (h : okFetch net homeReq = none ∨ okFetch net cssReq = none) :
    (handleInstall net cs).1 = false ∧
    ∀ name, partitionEntries (handleInstall net cs).2.1 name = partitionEntries cs name := by
  have hfl : fetchList net preloadRequests = none := by
    rw [fetchList_preloads]
    rcases h with h | h
    · rw [h]
    · rw [h]
      cases okFetch net homeReq <;> rfl
  refine ⟨by simp [handleInstall, hfl], fun name => ?_⟩
  simp [handleInstall, hfl, partitionEntries_cachesOpen]

/-- Witness for C5: with a network serving only the first preload URL, the
install fails and the pre-existing partition entries stay as they were. -/
theorem install_failure_all_or_nothing_witness :
    (handleInstall netHomeOnly preInstalledState).1 = false ∧
    partitionEntries (handleInstall netHomeOnly preInstalledState).2.1 cacheName
      = partitionEntries preInstalledState cacheName :=
  ⟨(install_failure_all_or_nothing netHomeOnly preInstalledState (Or.inr (by decide))).1,
   (install_failure_all_or_nothing netHomeOnly preInstalledState
      (Or.inr (by decide))).2 cacheName⟩

/-- Counterexample to C4: in a storage whose only partition is named
other-cache, the partition expense-cache-v1 has no entries at all, yet the
fetch handler serves the request GET /x from the store without touching the
network: `caches.match` consulted a partition other than expense-cache-v1. -/
theorem fetch_lookup_beyond_named_partition :
    partitionEntries otherOnlyState cacheName = [] ∧
    (handleFetch netDown otherOnlyState { method := "GET", url := "/x" }).1
      = some homeResp ∧
    netCalls (handleFetch netDown otherOnlyState { method := "GET", url := "/x" }).2.2
      = 0 := by
  decide

/-- C4 amended: the lookup is `caches.match`, which consults every partition
of the cache storage in creation order; when expense-cache-v1 is the only
partition — the only situation this worker itself ever creates — the decision
reduces to a lookup in that single partition. -/
theorem fetch_lookup_single_partition (net : Network) (c : Cache) (req : Request) :
    (handleFetch net [(cacheName, c)] req).1 =
      match cacheMatchIn c req with
      | some v => some v
      | none => net req := by
  cases h : cacheMatchIn c req <;>
    simp [handleFetch, cachesMatch, h]

/-- Counterexample to C8: with the partition already holding both preload
entries but the network down, re-running the install errors (the handler
re-fetches unconditionally instead of noticing the entries). -/
theorem reinstall_with_entries_can_fail :
    partitionKeys preInstalledState cacheName = preloadRequests ∧
    (handleInstall netDown preInstalledState).1 = false := by
  decide

/-- C8 amended: re-running the install when the partition already holds
exactly the two preload entries does not error and leaves the key set
unchanged, provided both preload fetches succeed during the re-run; a failing
preload fetch makes the re-run error despite the existing entries. -/
theorem reinstall_idempotent_when_fetches_succeed (net : Network) (cs : CacheStorage)
    (v1 v2 : Response) (h1 : okFetch net homeReq = some v1)
    (h2 : okFetch net cssReq = some v2)
    (hk : partitionKeys cs cacheName = preloadRequests) :
    (handleInstall net cs).1 = true ∧
    partitionKeys (handleInstall net cs).2.1 cacheName = preloadRequests := by
  have hfl : fetchList net preloadRequests = some [(homeReq, v1), (cssReq, v2)] := by
    rw [fetchList_preloads, h1, h2]
  have hfp : findPartition cs cacheName = some (partitionEntries cs cacheName) := by
    cases h : findPartition cs cacheName with
    | some c => simp [partitionEntries, h]
    | none =>
      exfalso
      rw [partitionKeys, partitionEntries, h, preloadRequests_eq] at hk
      simp at hk
  have m1 : homeReq ∈ (partitionEntries cs cacheName).map Prod.fst := by
    rw [← partitionKeys, hk, preloadRequests_eq]
    simp
  have m2 : cssReq ∈ (cachePut (partitionEntries cs cacheName) homeReq v1).map Prod.fst := by
    rw [keys_cachePut_mem _ _ _ m1, ← partitionKeys, hk, preloadRequests_eq]
    simp
  refine ⟨by simp [handleInstall, hfl], ?_⟩
  simp only [handleInstall, hfl]
  rw [partitionKeys,
    partitionEntries_storageUpdate_self _ _ _ _ (findPartition_cachesOpen_self cs cacheName)]
  simp only [putAll]
  rw [keys_cachePut_mem _ _ _ m2, keys_cachePut_mem _ _ _ m1, ← partitionKeys, hk]

/-- Witness for the amended C8: re-installing over a working network on the
already-populated state succeeds and keeps exactly the two preload keys. -/
theorem reinstall_idempotent_when_fetches_succeed_witness :
    (handleInstall netAll preInstalledState).1 = true ∧
    partitionKeys (handleInstall netAll preInstalledState).2.1 cacheName
      = preloadRequests :=
  reinstall_idempotent_when_fetches_succeed netAll preInstalledState
    { status := 200, headers := [], body := "/" }
    { status := 200, headers := [], body := "/static/style.css" }
    (by decide) (by decide) (by decide)

/-- C10: the install handler never reads existing cache contents (no cache
read appears in its trace), it issues network fetches for both preload URLs on
every run, it succeeds exactly when both fetches yield ok responses, and on
success the stored response for each preload URL is the freshly fetched one,
overwriting whatever was stored before. -/
theorem install_refetches_and_overwrites (net : Network) (cs : CacheStorage) :
    (handleInstall net cs).2.2.all (fun e => !(e.isCacheRead)) = true ∧
    Eff.netCall homeReq ∈ (handleInstall net cs).2.2 ∧
    Eff.netCall cssReq ∈ (handleInstall net cs).2.2 ∧
    ((handleInstall net cs).1 = true ↔
      (okFetch net homeReq).isSome ∧ (okFetch net cssReq).isSome) ∧
    ((handleInstall net cs).1 = true →
      cacheMatchIn (partitionEntries (handleInstall net cs).2.1 cacheName) homeReq
        = okFetch net homeReq ∧
      cacheMatchIn (partitionEntries (handleInstall net cs).2.1 cacheName) cssReq
        = okFetch net cssReq) := by
  cases hf1 : okFetch net homeReq with
  | none =>
    have hfl : fetchList net preloadRequests = none := by
      rw [fetchList_preloads, hf1]
    simp only [handleInstall, hfl]
    simp [preloadRequests_eq, Eff.isCacheRead]
  | some v1 =>
    cases hf2 : okFetch net cssReq with
    | none =>
      have hfl : fetchList net preloadRequests = none := by
        rw [fetchList_preloads, hf1, hf2]
      simp only [handleInstall, hfl]
      simp [preloadRequests_eq, Eff.isCacheRead]
    | some v2 =>
      have hfl : fetchList net preloadRequests = some [(homeReq, v1), (cssReq, v2)] := by
        rw [fetchList_preloads, hf1, hf2]
      refine ⟨?_, ?_, ?_, ?_, fun _ => ?_⟩
      · simp only [handleInstall, hfl]
        simp [preloadRequests_eq, Eff.isCacheRead]
      · simp only [handleInstall, hfl]
        simp [preloadRequests_eq]
      · simp only [handleInstall, hfl]
        simp [preloadRequests_eq]
      · simp only [handleInstall, hfl]
        simp
      · simp only [handleInstall, hfl]
        rw [partitionEntries_storageUpdate_self _ _ _ _
          (findPartition_cachesOpen_self cs cacheName)]
        simp only [putAll]
        refine ⟨?_, ?_⟩
        · rw [cacheMatchIn_cachePut_other _ _ _ _ (Ne.symm homeReq_ne_cssReq),
            cacheMatchIn_cachePut_self]
        · rw [cacheMatchIn_cachePut_self]

/-- Witness for C10: re-installing over the state holding a stale response
for GET / replaces it with the freshly fetched response. -/
theorem install_refetches_and_overwrites_witness :
    (handleInstall netAll staleState).2.2.all (fun e => !(e.isCacheRead)) = true ∧
    Eff.netCall homeReq ∈ (handleInstall netAll staleState).2.2 ∧
    Eff.netCall cssReq ∈ (handleInstall netAll staleState).2.2 ∧
    ((handleInstall netAll staleState).1 = true ↔
      (okFetch netAll homeReq).isSome ∧ (okFetch netAll cssReq).isSome) ∧
    ((handleInstall netAll staleState).1 = true →
      cacheMatchIn (partitionEntries (handleInstall netAll staleState).2.1 cacheName) homeReq
        = okFetch netAll homeReq ∧
      cacheMatchIn (partitionEntries (handleInstall netAll staleState).2.1 cacheName) cssReq
        = okFetch netAll cssReq) :=
  install_refetches_and_overwrites netAll staleState

/-- A step of an in-flight fetch event never changes the shared storage. -/
theorem stepFetch_store (net : Network) (req : Request) (p : FetchPhase)
    (cs : CacheStorage) : (stepFetch net req p cs).2 = cs := by
  cases p <;> rfl

/-- Stepping preserves the reachable phases of a fetch event. -/
theorem stepFetch_reach (net : Network) (cs : CacheStorage) (req : Request)
    (p : FetchPhase) (h : Reach net cs req p) :
    Reach net cs req (stepFetch net req p cs).1 := by
  rcases h with h | ⟨h, hm⟩ | h
  · subst h
    cases hm : cachesMatch cs req with
    | some v =>
      right; right
      simp [stepFetch, hm, handleFetch]
    | none =>
      right; left
      exact ⟨by simp [stepFetch, hm], hm⟩
  · subst h
    right; right
    simp [stepFetch, handleFetch, hm]
  · subst h
    right; right
    simp [stepFetch]

/-- Two further steps resolve a fetch event to the outcome the handler
produces when run alone over the same storage. -/
theorem stepFetch_twice (net : Network) (cs : CacheStorage) (req : Request)
    (p : FetchPhase) (h : Reach net cs req p) :
    (stepFetch net req (stepFetch net req p cs).1 cs).1
      = FetchPhase.resolved (handleFetch net cs req).1 := by
  rcases h with h | ⟨h, hm⟩ | h
  · subst h
    cases hm : cachesMatch cs req with
    | some v => simp [stepFetch, hm, handleFetch]
    | none => simp [stepFetch, hm, handleFetch]
  · subst h
    simp [stepFetch, handleFetch, hm]
  · subst h
    simp [stepFetch]

/-- Running a concatenated schedule runs the pieces in order. -/
theorem runSched_append (net : Network) (r1 r2 : Request)
    (st : FetchPhase × FetchPhase × CacheStorage) (a b : List Bool) :
    runSched net r1 r2 st (a ++ b) = runSched net r1 r2 (runSched net r1 r2 st a) b := by
  induction a generalizing st with
  | nil => rfl
  | cons x xs ih => simp [runSched, ih]

/-- Invariant of the interleaved system: the shared storage never changes and
each event stays within its reachable phases. -/
theorem runSched_invariant (net : Network) (cs : CacheStorage) (r1 r2 : Request)
    (sched : List Bool) (st : FetchPhase × FetchPhase × CacheStorage)
    (hs : st.2.2 = cs) (hr1 : Reach net cs r1 st.1) (hr2 : Reach net cs r2 st.2.1) :
    (runSched net r1 r2 st sched).2.2 = cs ∧
    Reach net cs r1 (runSched net r1 r2 st sched).1 ∧
    Reach net cs r2 (runSched net r1 r2 st sched).2.1 := by
  induction sched generalizing st with
  | nil => exact ⟨hs, hr1, hr2⟩
  | cons b rest ih =>
    simp only [runSched]
    cases b with
    | false =>
      have e1 : (stepSystem net r1 r2 st false).1 = st.1 := by simp [stepSystem]
      have e2 : (stepSystem net r1 r2 st false).2.1 = (stepFetch net r2 st.2.1 cs).1 := by
        simp [stepSystem, hs]
      have e3 : (stepSystem net r1 r2 st false).2.2 = cs := by
        simp [stepSystem, hs, stepFetch_store]
      refine ih _ e3 ?_ ?_
      · rw [e1]; exact hr1
      · rw [e2]; exact stepFetch_reach net cs r2 st.2.1 hr2
    | true =>
      have e1 : (stepSystem net r1 r2 st true).1 = (stepFetch net r1 st.1 cs).1 := by
        simp [stepSystem, hs]
      have e2 : (stepSystem net r1 r2 st true).2.1 = st.2.1 := by simp [stepSystem]
      have e3 : (stepSystem net r1 r2 st true).2.2 = cs := by
        simp [stepSystem, hs, stepFetch_store]
      refine ih _ e3 ?_ ?_
      · rw [e1]; exact stepFetch_reach net cs r1 st.1 hr1
      · rw [e2]; exact hr2

/-- Two consecutive steps of the first event resolve it to its sequential
outcome and touch nothing else. -/
theorem runSched_two_true (net : Network) (cs : CacheStorage) (r1 r2 : Request)
    (st : FetchPhase × FetchPhase × CacheStorage) (hs : st.2.2 = cs)
    (hr : Reach net cs r1 st.1) :
    runSched net r1 r2 st [true, true]
      = (FetchPhase.resolved (handleFetch net cs r1).1, st.2.1, cs) := by
  obtain ⟨p1, p2, s⟩ := st
  simp only at hs hr
  rw [hs]
  simp [runSched, stepSystem, stepFetch_store, stepFetch_twice net cs r1 p1 hr]

/-- Two consecutive steps of the second event resolve it to its sequential
outcome and touch nothing else. -/
theorem runSched_two_false (net : Network) (cs : CacheStorage) (r1 r2 : Request)
    (st : FetchPhase × FetchPhase × CacheStorage) (hs : st.2.2 = cs)
    (hr : Reach net cs r2 st.2.1) :
    runSched net r1 r2 st [false, false]
      = (st.1, FetchPhase.resolved (handleFetch net cs r2).1, cs) := by
  obtain ⟨p1, p2, s⟩ := st
  simp only at hs hr
  rw [hs]
  simp [runSched, stepSystem, stepFetch_store, stepFetch_twice net cs r2 p2 hr]

/-- C9: two concurrent fetch events, interleaved under an arbitrary schedule
over the shared storage, each resolve to exactly the outcome the handler
produces for that request alone, and the storage is never changed: the
handlers only read the store, so no interleaving can affect either result. -/
theorem concurrent_fetches_schedule_independent (net : Network) (cs : CacheStorage)
    (r1 r2 : Request) (sched : List Bool) :
    (runSched net r1 r2 (FetchPhase.start, FetchPhase.start, cs)
        (sched ++ [true, true, false, false])).1
      = FetchPhase.resolved (handleFetch net cs r1).1 ∧
    (runSched net r1 r2 (FetchPhase.start, FetchPhase.start, cs)
        (sched ++ [true, true, false, false])).2.1
      = FetchPhase.resolved (handleFetch net cs r2).1 ∧
    (runSched net r1 r2 (FetchPhase.start, FetchPhase.start, cs)
        (sched ++ [true, true, false, false])).2.2 = cs := by
  obtain ⟨hs, hr1, hr2⟩ := runSched_invariant net cs r1 r2 sched
    (FetchPhase.start, FetchPhase.start, cs) rfl (Or.inl rfl) (Or.inl rfl)
  rw [show sched ++ [true, true, false, false]
      = (sched ++ [true, true]) ++ [false, false] from by simp]
  rw [runSched_append, runSched_append]
  rw [runSched_two_true net cs r1 r2 _ hs hr1]
  rw [runSched_two_false net cs r1 r2
    (FetchPhase.resolved (handleFetch net cs r1).1,
      (runSched net r1 r2 (FetchPhase.start, FetchPhase.start, cs) sched).2.1, cs)
    rfl hr2]
  exact ⟨rfl, rfl, rfl⟩

end SW
